import Mathlib

/-!
Verification of the Redfin scraper extraction pipeline (`redfin_scraper.py`).

The browser/DOM layer (Playwright, BeautifulSoup) is an external collaborator:
an element that a selector may or may not find is modelled as an `Option`
holding the text (or attribute value) that the library would report for it.
All repository-owned logic — whitespace normalisation, card parsing, the
scroll/reveal loop, the status-badge heuristic, the engagement-stats regular
expression and the key-details/agent extraction — is embedded as executable
Lean definitions that mirror the Python source line by line.
-/

namespace Redfin

/-- ASCII whitespace recognised by Python's argument-free `str.split` /
`str.strip` (space, tab, newline, carriage return, vertical tab, form feed). -/
def isPyWs (c : Char) : Bool :=
  c == ' ' || c == '\t' || c == '\n' || c == '\r' || c == '\x0b' || c == '\x0c'

/-- Accumulator-style splitter behind Python's `value.split()`: maximal runs of
non-whitespace characters, in order, empty pieces discarded.  `cur` holds the
current word reversed. -/
def wordsAux : List Char → List Char → List (List Char)
  | cur, [] => if cur.isEmpty then [] else [cur.reverse]
  | cur, c :: cs =>
    if isPyWs c then
      if cur.isEmpty then wordsAux [] cs else cur.reverse :: wordsAux [] cs
    else
      wordsAux (c :: cur) cs

/-- Python `value.split()` on a character list. -/
def words (l : List Char) : List (List Char) :=
  wordsAux [] l

/-- Python `" ".join(ws)`: words separated by single ASCII spaces. -/
def joinWords : List (List Char) → List Char
  | [] => []
  | [w] => w
  | w :: ws => w ++ ' ' :: joinWords ws

/-- `" ".join(value.split())` for a plain string. -/
def cleanStat (s : String) : String :=
  ⟨joinWords (words s.data)⟩

/-- `RedfinScraper._clean_card_stat`: a falsy value (absent or empty string)
is returned unchanged, otherwise whitespace runs collapse to single spaces. -/
def cleanCardStat (v : Option String) : Option String :=
  match v with
  | none => none
  | some s => if s = "" then some s else some (cleanStat s)

/-- Python `value.strip()`: drop leading and trailing whitespace. -/
def pyStripL (l : List Char) : List Char :=
  ((l.dropWhile isPyWs).reverse.dropWhile isPyWs).reverse

/-- Python `value.strip()` on a string. -/
def pyStrip (s : String) : String :=
  ⟨pyStripL s.data⟩

/-! ### Properties of the normaliser -/

theorem wordsAux_nonWs (l : List Char) :
    ∀ cur, (∀ c ∈ cur, isPyWs c = false) →
      ∀ w ∈ wordsAux cur l, ∀ c ∈ w, isPyWs c = false := by
  induction l with
  | nil =>
    intro cur hcur w hw
    simp only [wordsAux] at hw
    by_cases hc : cur.isEmpty
    · simp [hc] at hw
    · simp [hc] at hw
      subst hw
      intro c hcmem
      exact hcur c (List.mem_reverse.mp hcmem)
  | cons c cs ih =>
    intro cur hcur w hw
    simp only [wordsAux] at hw
    by_cases hws : isPyWs c
    · simp only [hws, if_true] at hw
      by_cases hc : cur.isEmpty
      · simp [hc] at hw
        exact ih [] (by simp) w hw
      · simp [hc] at hw
        rcases hw with hw | hw
        · subst hw
          intro d hd
          exact hcur d (List.mem_reverse.mp hd)
        · exact ih [] (by simp) w hw
    · simp [hws] at hw
      refine ih (c :: cur) ?_ w hw
      intro d hd
      rcases List.mem_cons.mp hd with h | h
      · subst h; simpa using hws
      · exact hcur d h

theorem wordsAux_nonEmpty (l : List Char) : ∀ cur, ∀ w ∈ wordsAux cur l, w ≠ [] := by
  induction l with
  | nil =>
    intro cur w hw
    simp only [wordsAux] at hw
    by_cases hc : cur.isEmpty
    · simp [hc] at hw
    · simp [hc] at hw
      subst hw
      simpa [List.isEmpty_iff] using hc
  | cons c cs ih =>
    intro cur w hw
    simp only [wordsAux] at hw
    by_cases hws : isPyWs c
    · simp only [hws, if_true] at hw
      by_cases hc : cur.isEmpty
      · simp [hc] at hw
        exact ih [] w hw
      · simp [hc] at hw
        rcases hw with hw | hw
        · subst hw
          simpa [List.isEmpty_iff] using hc
        · exact ih [] w hw
    · simp [hws] at hw
      exact ih (c :: cur) w hw

theorem words_nonEmpty (l : List Char) : ∀ w ∈ words l, w ≠ [] :=
  wordsAux_nonEmpty l []

theorem words_nonWs (l : List Char) : ∀ w ∈ words l, ∀ c ∈ w, isPyWs c = false :=
  wordsAux_nonWs l [] (by simp)

theorem wordsAux_append (w : List Char) :
    ∀ cur rest, (∀ c ∈ w, isPyWs c = false) →
      wordsAux cur (w ++ rest) = wordsAux (w.reverse ++ cur) rest := by
  induction w with
  | nil => intro cur rest _; simp
  | cons c cs ih =>
    intro cur rest hnw
    have hc : isPyWs c = false := hnw c (by simp)
    simp only [List.cons_append, wordsAux, hc, Bool.false_eq_true, if_false]
    rw [show ((c :: cs).reverse ++ cur) = cs.reverse ++ (c :: cur) by simp]
    exact ih (c :: cur) rest (fun d hd => hnw d (by simp [hd]))

theorem words_joinWords (ws : List (List Char))
    (hne : ∀ w ∈ ws, w ≠ []) (hnw : ∀ w ∈ ws, ∀ c ∈ w, isPyWs c = false) :
    words (joinWords ws) = ws := by
  induction ws with
  | nil => simp [joinWords, words, wordsAux]
  | cons w ws ih =>
    cases ws with
    | nil =>
      have hw : w ≠ [] := hne w (by simp)
      have hwnw : ∀ c ∈ w, isPyWs c = false := hnw w (by simp)
      have : words (joinWords [w]) = wordsAux (w.reverse ++ []) [] := by
        simpa [joinWords, words] using wordsAux_append w [] [] hwnw
      rw [this]
      have hne' : ¬ (w.reverse ++ []).isEmpty := by
        simp [List.isEmpty_iff, hw]
      simp [wordsAux, hne', hw]
    | cons w2 ws' =>
      have hw : w ≠ [] := hne w (by simp)
      have hwnw : ∀ c ∈ w, isPyWs c = false := hnw w (by simp)
      have hjw : joinWords (w :: w2 :: ws') = w ++ ' ' :: joinWords (w2 :: ws') := rfl
      rw [hjw]
      have : words (w ++ ' ' :: joinWords (w2 :: ws')) =
          wordsAux w.reverse (' ' :: joinWords (w2 :: ws')) := by
        simpa [words] using wordsAux_append w [] (' ' :: joinWords (w2 :: ws')) hwnw
      rw [this]
      have hne' : ¬ (w.reverse).isEmpty := by
        simp [List.isEmpty_iff, hw]
      have hsp : isPyWs ' ' = true := by decide
      simp only [wordsAux, hsp, if_true, hne', if_false]
      have ihrec : wordsAux [] (joinWords (w2 :: ws')) = w2 :: ws' := by
        exact ih (fun x hx => hne x (by simp [hx])) (fun x hx => hnw x (by simp [hx]))
      simp [ihrec]

theorem cleanStat_data (s : String) : (cleanStat s).data = joinWords (words s.data) := rfl

theorem words_cleanStat (s : String) : words (cleanStat s).data = words s.data := by
  rw [cleanStat_data]
  exact words_joinWords (words s.data) (words_nonEmpty s.data) (words_nonWs s.data)

theorem cleanStat_idem (s : String) : cleanStat (cleanStat s) = cleanStat s := by
  show (⟨joinWords (words (cleanStat s).data)⟩ : String) = cleanStat s
  rw [words_cleanStat]
  rfl

theorem mem_joinWords (ws : List (List Char)) (c : Char) :
    c ∈ joinWords ws → (∃ w ∈ ws, c ∈ w) ∨ c = ' ' := by
  induction ws with
  | nil => intro h; simp [joinWords] at h
  | cons w ws ih =>
    cases ws with
    | nil =>
      intro h
      exact Or.inl ⟨w, by simp, by simpa [joinWords] using h⟩
    | cons w2 ws' =>
      intro h
      have : c ∈ w ++ ' ' :: joinWords (w2 :: ws') := h
      rcases List.mem_append.mp this with h1 | h2
      · exact Or.inl ⟨w, by simp, h1⟩
      · rcases List.mem_cons.mp h2 with h3 | h4
        · exact Or.inr h3
        · rcases ih h4 with ⟨w', hw', hc'⟩ | hsp
          · exact Or.inl ⟨w', by simp [hw'], hc'⟩
          · exact Or.inr hsp

theorem cleanStat_ws_only_space (s : String) :
    (cleanStat s).data.all (fun c => !isPyWs c || c == ' ') = true := by
  rw [List.all_eq_true]
  intro c hc
  rw [cleanStat_data] at hc
  rcases mem_joinWords (words s.data) c hc with ⟨w, hw, hcw⟩ | hsp
  · have := words_nonWs s.data w hw c hcw
    simp [this]
  · simp [hsp]

theorem cleanCardStat_idem (v : Option String) :
    cleanCardStat (cleanCardStat v) = cleanCardStat v := by
  match v with
  | none => rfl
  | some s =>
    by_cases hs : s = ""
    · simp [cleanCardStat, hs]
    · simp only [cleanCardStat, hs, if_false]
      by_cases hcs : cleanStat s = ""
      · simp [hcs]
      · simp [hcs, cleanStat_idem]

/-- Claim C2: the text normaliser `_clean_card_stat` maps an absent value to
itself, collapses every maximal whitespace run (newlines and tabs included) to
one ASCII space while trimming the ends (so the two-word example normalises to
a single-spaced string), preserves the word sequence of its input, leaves no
whitespace character in its output other than single ASCII spaces, and is
idempotent. -/
theorem c2_text_normalizer :
    cleanCardStat none = none ∧
    cleanCardStat (some "  a\n\tb  ") = some "a b" ∧
    (∀ v : Option String, cleanCardStat (cleanCardStat v) = cleanCardStat v) ∧
    (∀ s : String, words (cleanStat s).data = words s.data) ∧
    (∀ s : String, (cleanStat s).data.all (fun c => !isPyWs c || c == ' ') = true) :=
  ⟨rfl, by decide, cleanCardStat_idem, words_cleanStat, cleanStat_ws_only_space⟩

/-! ### Card parsing and the listing collector -/

/-- Errors raised inside the collection pipeline.  The source raises
`RuntimeError` at two distinct sites; the spec names them `NoCardsFound`
(zero cards after the reveal budget) and `MissingDetailLink` (a card without a
resolvable detail URL). -/
inductive ScrapeError where
  | noCardsFound
  | missingDetailLink
  deriving Repr, DecidableEq

/-- `RedfinScraper.base_url`. -/
def baseUrl : String := "https://www.redfin.com"

/-- Bool test for a character-list beginning with the given pattern. -/
def startsWithL : List Char → List Char → Bool
  | _, [] => true
  | [], _ :: _ => false
  | c :: cs, d :: ds => c == d && startsWithL cs ds

/-- Python `s.startswith(pat)`. -/
def pyStartsWith (s pat : String) : Bool :=
  startsWithL s.data pat.data

/-- `detail_path if detail_path.startswith("http") else f"{base_url}{detail_path}"`. -/
def resolveUrl (path : String) : String :=
  if pyStartsWith path "http" then path else baseUrl ++ path

/-- One rendered home-card element.  Each field holds what the corresponding
Playwright query of `_parse_home_card` would report: `none` when the
sub-element (or attribute) is absent, otherwise the raw text / attribute
value. -/
structure CardElem where
  priceText : Option String
  bedsText : Option String
  bathsText : Option String
  sqftText : Option String
  addressText : Option String
  titleAttr : Option String
  hrefAttr : Option String
  imgSrc : Option String
  deriving Repr, DecidableEq

/-- The `HomeCard` dataclass. -/
structure HomeCard where
  title : Option String
  price : Option String
  beds : Option String
  baths : Option String
  sqft : Option String
  address : Option String
  detailUrl : String
  imageUrl : Option String
  deriving Repr, DecidableEq

/-- `RedfinScraper._parse_home_card`.  `get_text` strips the inner text of a
found element; the `title` attribute falls back to the address when falsy
(absent or empty); a falsy detail link raises, all other fields degrade to
`none`; stat fields pass through `_clean_card_stat`. -/
def parseHomeCard (c : CardElem) : Except ScrapeError HomeCard :=
  let price := c.priceText.map pyStrip
  let beds := c.bedsText.map pyStrip
  let baths := c.bathsText.map pyStrip
  let sqft := c.sqftText.map pyStrip
  let address := c.addressText.map pyStrip
  match c.hrefAttr with
  | none => .error .missingDetailLink
  | some path =>
    if path = "" then .error .missingDetailLink
    else
      .ok
        { title :=
            match c.titleAttr with
            | some t => if t = "" then address else some (pyStrip t)
            | none => address
          price := cleanCardStat price
          beds := cleanCardStat beds
          baths := cleanCardStat baths
          sqft := cleanCardStat sqft
          address := address
          detailUrl := resolveUrl path
          imageUrl := c.imgSrc }

/-- The listing surface: `cards n` is the ordered list of rendered card
elements after `n` scroll/pause reveal actions have been performed. -/
structure ListingPage where
  cards : Nat → List CardElem

/-- The `while locator.count() < limit and attempts < 10` loop of
`_collect_home_cards`: `fuel` is the remaining attempt budget, `attempts` the
number of scroll actions already performed; the returned value is the final
number of scroll actions. -/
def revealLoop (p : ListingPage) (limit : Nat) : Nat → Nat → Nat
  | 0, attempts => attempts
  | fuel + 1, attempts =>
    if (p.cards attempts).length < limit then revealLoop p limit fuel (attempts + 1)
    else attempts

/-- Number of scroll/reveal actions `_collect_home_cards` performs (budget 10,
starting from zero attempts). -/
def revealAttempts (p : ListingPage) (limit : Nat) : Nat :=
  revealLoop p limit 10 0

/-- Sequential per-card parsing with error propagation, as the `for index in
range(min(limit, available))` loop behaves. -/
def mapExcept (f : α → Except ε β) : List α → Except ε (List β)
  | [] => .ok []
  | x :: xs =>
    match f x with
    | .error e => .error e
    | .ok y =>
      match mapExcept f xs with
      | .error e => .error e
      | .ok ys => .ok (y :: ys)

/-- `RedfinScraper._collect_home_cards`: run the reveal loop, fail with
`NoCardsFound` when zero cards rendered, otherwise parse the first
`min(limit, available)` cards in document order. -/
def collectHomeCards (p : ListingPage) (limit : Nat) : Except ScrapeError (List HomeCard) :=
  let a := revealAttempts p limit
  let available := (p.cards a).length
  if available = 0 then .error .noCardsFound
  else mapExcept parseHomeCard ((p.cards a).take (min limit available))

/-! ### Collector lemmas -/

theorem mapExcept_ok_length {f : α → Except ε β} :
    ∀ {l : List α} {ys : List β}, mapExcept f l = .ok ys → ys.length = l.length := by
  intro l
  induction l with
  | nil =>
    intro ys h
    simp only [mapExcept] at h
    cases h
    rfl
  | cons x xs ih =>
    intro ys h
    simp only [mapExcept] at h
    cases hf : f x with
    | error e => rw [hf] at h; cases h
    | ok y =>
      rw [hf] at h
      cases hr : mapExcept f xs with
      | error e => rw [hr] at h; cases h
      | ok ys' =>
        rw [hr] at h
        cases h
        simp [ih hr]

theorem mapExcept_ok_getElem {f : α → Except ε β} :
    ∀ {l : List α} {ys : List β}, mapExcept f l = .ok ys →
      ∀ i : Nat, (l[i]?.bind fun x => (f x).toOption) = ys[i]? := by
  intro l
  induction l with
  | nil =>
    intro ys h i
    simp only [mapExcept] at h
    cases h
    simp
  | cons x xs ih =>
    intro ys h i
    simp only [mapExcept] at h
    cases hf : f x with
    | error e => rw [hf] at h; cases h
    | ok y =>
      rw [hf] at h
      cases hr : mapExcept f xs with
      | error e => rw [hr] at h; cases h
      | ok ys' =>
        rw [hr] at h
        cases h
        cases i with
        | zero => simp [hf, Except.toOption]
        | succ j => simpa using ih hr j

theorem mapExcept_error_of_mem {f : α → Except ε β} {l : List α} {x : α} {e : ε}
    (hx : x ∈ l) (hf : f x = .error e)
    (huniq : ∀ y e', f y = .error e' → e' = e) :
    mapExcept f l = .error e := by
  induction l with
  | nil => cases hx
  | cons z zs ih =>
    rcases List.mem_cons.mp hx with h | h
    · subst h
      simp [mapExcept, hf]
    · cases hz : f z with
      | error e' =>
        have := huniq z e' hz
        subst this
        simp [mapExcept, hz]
      | ok y =>
        simp [mapExcept, hz, ih h]

theorem parseHomeCard_error {c : CardElem} {e : ScrapeError}
    (h : parseHomeCard c = .error e) : e = .missingDetailLink := by
  unfold parseHomeCard at h
  cases hh : c.hrefAttr with
  | none => rw [hh] at h; cases h; rfl
  | some path =>
    rw [hh] at h
    by_cases hp : path = ""
    · simp only [hp, if_true] at h
      cases h
      rfl
    · simp only [hp, if_false] at h
      cases h

theorem revealAttempts_zero (p : ListingPage) (limit : Nat)
    (h : limit ≤ (p.cards 0).length) : revealAttempts p limit = 0 := by
  have : ¬ (p.cards 0).length < limit := Nat.not_lt.mpr h
  simp [revealAttempts, revealLoop, this]

/-- Claim C3: with a positive limit, a successful collection returns exactly
the first `min(limit, available)` rendered cards in document order (element
`i` of the result is the parse of rendered card `i`), and when the cards
already rendered before any reveal action number at least `limit`, no
scroll/reveal action is performed at all. -/
theorem c3_collector_first_min (p : ListingPage) (limit : Nat) (l : List HomeCard)
    (hpos : 0 < limit) (hok : collectHomeCards p limit = .ok l) :
    l.length = min limit ((p.cards (revealAttempts p limit)).length) ∧
    (∀ i, i < l.length →
      ((p.cards (revealAttempts p limit))[i]?.bind fun c => (parseHomeCard c).toOption)
        = l[i]?) ∧
    (limit ≤ (p.cards 0).length → revealAttempts p limit = 0) := by
  unfold collectHomeCards at hok
  set a := revealAttempts p limit with ha
  by_cases hz : (p.cards a).length = 0
  · simp [hz] at hok
  · simp only [hz, if_false] at hok
    have hlen : l.length = min limit ((p.cards a).length) := by
      have h1 := mapExcept_ok_length hok
      rw [List.length_take] at h1
      simpa [Nat.min_assoc, Nat.min_self] using h1
    refine ⟨hlen, ?_, revealAttempts_zero p limit⟩
    intro i hi
    have := mapExcept_ok_getElem hok i
    rw [← this]
    have hilt : i < min limit ((p.cards a).length) := hlen ▸ hi
    rw [List.getElem?_take_of_lt hilt]

/-- Claim C4: if zero card elements are rendered once the reveal loop is over,
collection fails with `NoCardsFound`; with a positive limit a successful
collection never returns an empty list. -/
theorem c4_no_cards_found (p : ListingPage) (limit : Nat) :
    ((p.cards (revealAttempts p limit)).length = 0 →
      collectHomeCards p limit = .error .noCardsFound) ∧
    (0 < limit → ∀ l, collectHomeCards p limit = .ok l → l ≠ []) := by
  constructor
  · intro hz
    unfold collectHomeCards
    simp [hz]
  · intro hpos l hok
    unfold collectHomeCards at hok
    by_cases hz : (p.cards (revealAttempts p limit)).length = 0
    · simp [hz] at hok
    · simp only [hz, if_false] at hok
      have hlen := mapExcept_ok_length hok
      rw [List.length_take] at hlen
      intro hnil
      subst hnil
      simp only [List.length_nil] at hlen
      have hmin : min (min limit ((p.cards (revealAttempts p limit)).length))
          ((p.cards (revealAttempts p limit)).length) = 0 := hlen.symm
      rcases Nat.min_eq_zero_iff.mp hmin with h | h
      · rcases Nat.min_eq_zero_iff.mp h with h' | h'
        · exact absurd h' (Nat.pos_iff_ne_zero.mp hpos)
        · exact hz h'
      · exact hz h

/-- Witness for C3 at a surface that renders one card before any reveal. -/
theorem c3_collector_first_min_witness :
    revealAttempts ⟨fun _ => [⟨none, none, none, none, some "1 Main St", none, some "/home/1", none⟩]⟩ 1 = 0 :=
  (c3_collector_first_min
      ⟨fun _ => [⟨none, none, none, none, some "1 Main St", none, some "/home/1", none⟩]⟩ 1
      [⟨some "1 Main St", none, none, none, none, some "1 Main St",
        "https://www.redfin.com/home/1", none⟩]
      (by decide) (by rfl)).2.2 (by decide)

/-- Witness for C4: an always-empty surface fails with `NoCardsFound`, and a
one-card surface at limit 1 yields a nonempty result. -/
theorem c4_no_cards_found_witness :
    collectHomeCards ⟨fun _ => []⟩ 3 = .error .noCardsFound ∧
    ([⟨some "1 Main St", none, none, none, none, some "1 Main St",
        "https://www.redfin.com/home/1", none⟩] : List HomeCard) ≠ [] :=
  ⟨(c4_no_cards_found ⟨fun _ => []⟩ 3).1 (by decide),
   (c4_no_cards_found
      ⟨fun _ => [⟨none, none, none, none, some "1 Main St", none, some "/home/1", none⟩]⟩ 1).2
      (by decide) _ (by rfl)⟩

/-- Claim C5: a card whose detail-link attribute is absent or empty makes
`_parse_home_card` fail with `MissingDetailLink`, and once such a card is
among the cards taken by the collector the whole collection fails with that
same error (no per-card recovery). -/
theorem c5_missing_detail_link (p : ListingPage) (limit : Nat) (c : CardElem)
    (hbad : c.hrefAttr = none ∨ c.hrefAttr = some "") :
    parseHomeCard c = .error .missingDetailLink ∧
    (¬ (p.cards (revealAttempts p limit)).length = 0 →
      c ∈ (p.cards (revealAttempts p limit)).take
        (min limit ((p.cards (revealAttempts p limit)).length)) →
      collectHomeCards p limit = .error .missingDetailLink) := by
  have hparse : parseHomeCard c = .error .missingDetailLink := by
    rcases hbad with h | h
    · simp [parseHomeCard, h]
    · simp [parseHomeCard, h]
  refine ⟨hparse, ?_⟩
  intro hz hmem
  unfold collectHomeCards
  simp only [hz, if_false]
  exact mapExcept_error_of_mem hmem hparse (fun y e' he' => parseHomeCard_error he')

/-- Witness for C5 at a one-card surface whose card has no link attribute. -/
theorem c5_missing_detail_link_witness :
    parseHomeCard ⟨none, none, none, none, none, none, none, none⟩ =
      .error .missingDetailLink ∧
    collectHomeCards ⟨fun _ => [⟨none, none, none, none, none, none, none, none⟩]⟩ 2 =
      .error .missingDetailLink :=
  ⟨(c5_missing_detail_link ⟨fun _ => [⟨none, none, none, none, none, none, none, none⟩]⟩ 2
      ⟨none, none, none, none, none, none, none, none⟩ (Or.inl rfl)).1,
   (c5_missing_detail_link ⟨fun _ => [⟨none, none, none, none, none, none, none, none⟩]⟩ 2
      ⟨none, none, none, none, none, none, none, none⟩ (Or.inl rfl)).2
      (by decide) (by decide)⟩

/-- Claim C6: a card carrying only an address sub-element and a nonempty
detail link, with no explicit title attribute and every other sub-element
absent, parses to a record whose title is the (stripped) address text, whose
address and detail URL are set, and whose price, beds, baths, sqft and image
fields are all absent. -/
theorem c6_card_address_fallback (a h : String) (hne : h ≠ "") :
    parseHomeCard ⟨none, none, none, none, some a, none, some h, none⟩ =
      .ok ⟨some (pyStrip a), none, none, none, none, some (pyStrip a), resolveUrl h, none⟩ := by
  simp [parseHomeCard, hne, cleanCardStat]

/-- Witness for C6 at a concrete address and relative link. -/
theorem c6_card_address_fallback_witness :
    parseHomeCard ⟨none, none, none, none, some "12 Oak Ave", none, some "/h", none⟩ =
      .ok ⟨some "12 Oak Ave", none, none, none, none, some "12 Oak Ave",
        "https://www.redfin.com/h", none⟩ :=
  (c6_card_address_fallback "12 Oak Ave" "/h" (by decide)).trans (by rfl)

/-! ### Status badge classifier -/

/-- Bool test for `needle` occurring as a contiguous run inside `hay`. -/
def hasInfixL : List Char → List Char → Bool
  | hay, needle =>
    match hay with
    | [] => needle.isEmpty
    | _ :: rest => startsWithL hay needle || hasInfixL rest needle

/-- ASCII lower-casing, as `.lower()` / the `i` selector flag behave on the
texts involved here. -/
def lowerStr (s : String) : String :=
  ⟨s.data.map Char.toLower⟩

/-- Python `keyword in lowered` for strings. -/
def strContains (hay needle : String) : Bool :=
  hasInfixL hay.data needle.data

/-- One DOM element as seen by the status-badge script: its `class` attribute
and its trimmed, nonempty `textContent` are all the extractor reads. -/
structure StatusElem where
  className : String
  textContent : String
  deriving Repr, DecidableEq

/-- A detail page as seen by `_extract_status_badge`: the list of all DOM
elements (for the `[class*="status" i]` scan) and the visible body text. -/
structure StatusPage where
  elems : List StatusElem
  bodyText : String

/-- The in-page script of `_extract_status_badge`: elements whose class
attribute contains "status" case-insensitively, mapped to trimmed text,
empty strings dropped (`filter(Boolean)`). -/
def statusCandidates (p : StatusPage) : List String :=
  ((p.elems.filter fun e => strContains (lowerStr e.className) "status").map
      fun e => pyStrip e.textContent).filter fun t => t ≠ ""

/-- `preferred_keywords` of `_extract_status_badge`. -/
def preferredKeywords : List String :=
  ["for sale", "pending", "sold", "contingent", "active", "off market", "new listing"]

/-- `any(keyword in lowered for keyword in preferred_keywords)` applied to the
lower-cased text. -/
def passesKeyword (s : String) : Bool :=
  preferredKeywords.any fun k => strContains (lowerStr s) k

/-- The candidate loop of `_extract_status_badge`: clean, skip falsy, skip
over-80-character texts, return the first keyword hit. -/
def firstTier : List String → Option String
  | [] => none
  | raw :: rest =>
    let cleaned := cleanStat raw
    if cleaned = "" then firstTier rest
    else if 80 < cleaned.length then firstTier rest
    else if passesKeyword cleaned then some cleaned
    else firstTier rest

/-- Python `str.splitlines` on the character list (newline, carriage return
and the two-character CRLF all end a line; no trailing empty line). -/
def splitLinesAux : List Char → List Char → List (List Char)
  | cur, [] => if cur.isEmpty then [] else [cur.reverse]
  | cur, '\r' :: '\n' :: rest => cur.reverse :: splitLinesAux [] rest
  | cur, '\n' :: rest => cur.reverse :: splitLinesAux [] rest
  | cur, '\r' :: rest => cur.reverse :: splitLinesAux [] rest
  | cur, c :: rest => splitLinesAux (c :: cur) rest

/-- `body_text.splitlines()`. -/
def pySplitlines (s : String) : List String :=
  (splitLinesAux [] s.data).map fun l => ⟨l⟩

/-- The body-text fallback loop of `_extract_status_badge`. -/
def secondTier : List String → Option String
  | [] => none
  | line :: rest =>
    let cleaned := cleanStat line
    if cleaned = "" then secondTier rest
    else if passesKeyword cleaned then some cleaned
    else secondTier rest

/-- `RedfinScraper._extract_status_badge`. -/
def extractStatusBadge (p : StatusPage) : Option String :=
  match firstTier (statusCandidates p) with
  | some v => some v
  | none => secondTier (pySplitlines p.bodyText)

/-- Modelled from the spec wording of the Status Classifier, for comparison
with the code: first normalised candidate at most 80 characters long whose
lower-cased text contains a keyword; otherwise the first body-text line
passing the keyword test (normalised); otherwise absent. -/
def statusBadgeSpec (p : StatusPage) : Option String :=
  match ((statusCandidates p).map cleanStat).find?
      (fun c => decide (c.length ≤ 80) && passesKeyword c) with
  | some v => some v
  | none => ((pySplitlines p.bodyText).map cleanStat).find? passesKeyword

theorem passesKeyword_empty : passesKeyword "" = false := by decide

theorem firstTier_eq_find (cands : List String) :
    firstTier cands =
      (cands.map cleanStat).find? (fun c => decide (c.length ≤ 80) && passesKeyword c) := by
  induction cands with
  | nil => rfl
  | cons raw rest ih =>
    simp only [firstTier, List.map_cons, List.find?_cons]
    by_cases h0 : cleanStat raw = ""
    · simp [h0, passesKeyword_empty, ih]
    · by_cases h80 : 80 < (cleanStat raw).length
      · have : ¬ (cleanStat raw).length ≤ 80 := Nat.not_le.mpr h80
        simp [h0, h80, this, ih]
      · have hle : (cleanStat raw).length ≤ 80 := Nat.not_lt.mp h80
        by_cases hk : passesKeyword (cleanStat raw)
        · simp [h0, h80, hle, hk]
        · simp [h0, h80, hle, hk, ih]

theorem secondTier_eq_find (lines : List String) :
    secondTier lines = (lines.map cleanStat).find? passesKeyword := by
  induction lines with
  | nil => rfl
  | cons line rest ih =>
    simp only [secondTier, List.map_cons, List.find?_cons]
    by_cases h0 : cleanStat line = ""
    · simp [h0, passesKeyword_empty, ih]
    · by_cases hk : passesKeyword (cleanStat line)
      · simp [h0, hk]
      · simp [h0, hk, ih]

/-- Claim C7: the status classifier is exactly the two-tier first-match
heuristic the spec describes — the first normalised candidate text from
elements whose class attribute contains "status" (case-insensitively) that is
at most 80 characters long and contains a status keyword in lower case;
otherwise the first body-text line passing the same keyword test; otherwise
absent — as witnessed by concrete pages exercising each tier. -/
theorem c7_status_classifier :
    (∀ p : StatusPage, extractStatusBadge p = statusBadgeSpec p) ∧
    extractStatusBadge ⟨[⟨"statusLabel", "Pending"⟩], "irrelevant"⟩ = some "Pending" ∧
    extractStatusBadge ⟨[], "Hello\nThis home is  Off Market\nBye"⟩ =
      some "This home is Off Market" ∧
    extractStatusBadge ⟨[⟨"statusLabel", "nothing relevant"⟩], "no keyword here"⟩ = none := by
  refine ⟨?_, by rfl, by rfl, by rfl⟩
  intro p
  unfold extractStatusBadge statusBadgeSpec
  rw [firstTier_eq_find, secondTier_eq_find]

/-! ### Key-details, agent and listing-info extraction from the house-info
fragment

The fragment is a BeautifulSoup document snapshot; every `select_one` target
is modelled as an `Option` holding the text (`get_text`) the library would
produce for it, and an anchor additionally carries its optional `href`
attribute. -/

/-- The `.agent-basic-details--heading a` node: its text and `href`. -/
structure AgentNameNode where
  text : String
  href : Option String
  deriving Repr, DecidableEq

/-- The `agentInfoItem-redfinAgentDisplay` section. -/
structure AgentSection where
  nameNode : Option AgentNameNode
  brokerNode : Option String
  deriving Repr, DecidableEq

/-- The `.listingInfoSection` block with its four optional children. -/
structure ListingInfoSection where
  timeNode : Option String
  redfinCheckedNode : Option String
  sourceNode : Option String
  mlsNode : Option String
  deriving Repr, DecidableEq

/-- One `.KeyDetailsTable .keyDetails-row`: optional `.valueType` label node
and optional `.valueText` value node, each carrying its text when present. -/
structure KeyRow where
  label : Option String
  value : Option String
  deriving Repr, DecidableEq

/-- The parsed house-info fragment. -/
structure HouseInfo where
  descriptionNode : Option String
  keyRows : List KeyRow
  agentSection : Option AgentSection
  listingInfo : Option ListingInfoSection
  deriving Repr, DecidableEq

/-- What the key-details/agent extractor contributes to `PropertyDetails`. -/
structure HouseInfoResult where
  description : Option String
  keyDetails : List (String × String)
  agentName : Option String
  agentBroker : Option String
  agentProfileUrl : Option String
  listingUpdated : Option String
  redfinChecked : Option String
  mlsSource : Option String
  mlsId : Option String
  deriving Repr, DecidableEq

/-- Python-dict assignment `d[k] = v` on an insertion-ordered association
list: an existing key keeps its position and receives the new value, a new
key is appended. -/
def dictInsert (d : List (String × String)) (k v : String) : List (String × String) :=
  if k ∈ d.map Prod.fst then d.map fun p => if p.1 = k then (k, v) else p
  else d ++ [(k, v)]

/-- One iteration of the `keyDetails-row` loop: rows missing the label node or
the value node are skipped, an "on redfin" label (case-insensitive) is
skipped, anything else is assigned into the dict. -/
def keyStep (d : List (String × String)) (r : KeyRow) : List (String × String) :=
  match r.label, r.value with
  | some lt, some vt => if lowerStr lt = "on redfin" then d else dictInsert d lt vt
  | _, _ => d

/-- The whole `for row in house_info.select(...)` loop. -/
def buildKeyDetails : List (String × String) → List KeyRow → List (String × String)
  | d, [] => d
  | d, r :: rs => buildKeyDetails (keyStep d r) rs

/-- The key-details/agent/listing-info part of `_scrape_property_detail`
(lines operating on the BeautifulSoup fragment). -/
def extractHouseInfo (h : HouseInfo) : HouseInfoResult :=
  let agent : Option String × Option String × Option String :=
    match h.agentSection with
    | none => (none, none, none)
    | some sec =>
      (sec.nameNode.map fun n => n.text,
       sec.brokerNode,
       match sec.nameNode with
       | none => none
       | some n =>
         n.href.map fun u =>
           if u ≠ "" && !pyStartsWith u "http" then baseUrl ++ u else u)
  let listing : Option String × Option String × Option String × Option String :=
    match h.listingInfo with
    | none => (none, none, none, none)
    | some li =>
      (li.timeNode.map fun t => "Listing updated: " ++ cleanStat t,
       li.redfinCheckedNode.map fun t => "Redfin checked: " ++ cleanStat t,
       li.sourceNode.map fun t => "Source: " ++ cleanStat t,
       li.mlsNode.map fun t => "MLS ID: " ++ cleanStat ⟨t.data.dropWhile fun c => c == '#'⟩)
  { description := h.descriptionNode
    keyDetails := buildKeyDetails [] h.keyRows
    agentName := agent.1
    agentBroker := agent.2.1
    agentProfileUrl := agent.2.2
    listingUpdated := listing.1
    redfinChecked := listing.2.1
    mlsSource := listing.2.2.1
    mlsId := listing.2.2.2 }

/-- A row contributes to the mapping only when both nodes exist. -/
def validRow (r : KeyRow) : Bool :=
  r.label.isSome && r.value.isSome

theorem keyStep_invalid (d : List (String × String)) (r : KeyRow)
    (h : validRow r = false) : keyStep d r = d := by
  unfold validRow at h
  unfold keyStep
  cases hl : r.label with
  | none => rfl
  | some lt =>
    cases hv : r.value with
    | none => rfl
    | some vt => rw [hl, hv] at h; simp at h

theorem buildKeyDetails_filter (rs : List KeyRow) :
    ∀ d, buildKeyDetails d rs = buildKeyDetails d (rs.filter validRow) := by
  induction rs with
  | nil => intro d; rfl
  | cons r rs ih =>
    intro d
    by_cases hv : validRow r
    · rw [List.filter_cons_of_pos hv]
      exact ih (keyStep d r)
    · rw [List.filter_cons_of_neg (by simpa using hv)]
      show buildKeyDetails (keyStep d r) rs = _
      rw [keyStep_invalid d r (by simpa using hv)]
      exact ih d

/-- Claim C1: the key-details/agent extractor is total on any fragment and
each missing sub-element yields an absent value for exactly that piece — a
missing description block, a missing agent block (or a missing name node in
one), a missing listing-info block, and rows missing their label or value
node are all tolerated, the latter exactly as if the incomplete rows were not
there. -/
theorem c1_house_info_tolerant (h : HouseInfo) :
    (h.descriptionNode = none → (extractHouseInfo h).description = none) ∧
    (h.agentSection = none →
      (extractHouseInfo h).agentName = none ∧
      (extractHouseInfo h).agentBroker = none ∧
      (extractHouseInfo h).agentProfileUrl = none) ∧
    (∀ sec, h.agentSection = some sec → sec.nameNode = none →
      (extractHouseInfo h).agentName = none ∧
      (extractHouseInfo h).agentProfileUrl = none) ∧
    (h.listingInfo = none →
      (extractHouseInfo h).listingUpdated = none ∧
      (extractHouseInfo h).redfinChecked = none ∧
      (extractHouseInfo h).mlsSource = none ∧
      (extractHouseInfo h).mlsId = none) ∧
    (∀ li, h.listingInfo = some li → li.timeNode = none →
      (extractHouseInfo h).listingUpdated = none) ∧
    (extractHouseInfo h).keyDetails = buildKeyDetails [] (h.keyRows.filter validRow) := by
  refine ⟨?_, ?_, ?_, ?_, ?_, ?_⟩
  · intro hd; simp [extractHouseInfo, hd]
  · intro ha; simp [extractHouseInfo, ha]
  · intro sec hsec hname; simp [extractHouseInfo, hsec, hname]
  · intro hl; simp [extractHouseInfo, hl]
  · intro li hli ht; simp [extractHouseInfo, hli, ht]
  · show buildKeyDetails [] h.keyRows = _
    exact buildKeyDetails_filter h.keyRows []

/-- Witness for C1 at a fragment with no description, no agent block, no
listing-info block and one label-less row. -/
theorem c1_house_info_tolerant_witness :
    (extractHouseInfo ⟨none, [⟨none, some "ignored"⟩], none, none⟩).description = none ∧
    (extractHouseInfo ⟨none, [⟨none, some "ignored"⟩], none, none⟩).agentName = none ∧
    (extractHouseInfo ⟨none, [⟨none, some "ignored"⟩], none, none⟩).listingUpdated = none ∧
    (extractHouseInfo ⟨none, [⟨none, some "ignored"⟩], none, none⟩).keyDetails = [] :=
  ⟨(c1_house_info_tolerant _).1 rfl,
   ((c1_house_info_tolerant _).2.1 rfl).1,
   ((c1_house_info_tolerant ⟨none, [⟨none, some "ignored"⟩], none, none⟩).2.2.2.1 rfl).1,
   ((c1_house_info_tolerant ⟨none, [⟨none, some "ignored"⟩], none, none⟩).2.2.2.2.2).trans (by rfl)⟩

theorem startsWithL_nil (l : List Char) : startsWithL l [] = true := by
  cases l <;> rfl

theorem startsWithL_append (pat : List Char) :
    ∀ a b, startsWithL a pat = true → startsWithL (a ++ b) pat = true := by
  induction pat with
  | nil => intro a b _; exact startsWithL_nil _
  | cons d ds ih =>
    intro a b h
    cases a with
    | nil => simp [startsWithL] at h
    | cons c cs =>
      simp only [startsWithL, Bool.and_eq_true] at h
      simp only [List.cons_append, startsWithL, Bool.and_eq_true]
      exact ⟨h.1, ih cs b h.2⟩

/-- Claim C9 as stated is false on the code: an agent name anchor whose
`href` attribute is the empty string produces a present `agentProfileUrl`
equal to `""`, which is not an absolute URL (the empty string is falsy in
Python, so the resolution against the site origin is skipped). -/
theorem c9_agent_url_counterexample :
    ¬ (∀ (h : HouseInfo) (u : String),
        (extractHouseInfo h).agentProfileUrl = some u →
        (extractHouseInfo h).agentName ≠ none ∧ pyStartsWith u "http" = true) := by
  intro hcl
  have := hcl ⟨none, [], some ⟨some ⟨"Jane Doe", some ""⟩, none⟩, none⟩ "" (by rfl)
  exact absurd this.2 (by decide)

/-- Claim C9 amended: `agentProfileUrl` is present only if `agentName` is
present, and when present it is either the empty string (an empty `href`
attribute is kept verbatim) or an absolute URL in the code's own sense of
starting with "http", relative paths having been resolved against the site
origin. -/
theorem c9_agent_url_amended (h : HouseInfo) (u : String)
    (hu : (extractHouseInfo h).agentProfileUrl = some u) :
    (extractHouseInfo h).agentName ≠ none ∧
    (u = "" ∨ pyStartsWith u "http" = true) := by
  cases hsec : h.agentSection with
  | none => simp [extractHouseInfo, hsec] at hu
  | some sec =>
    cases hn : sec.nameNode with
    | none => simp [extractHouseInfo, hsec, hn] at hu
    | some n =>
      cases hh : n.href with
      | none => simp [extractHouseInfo, hsec, hn, hh] at hu
      | some u0 =>
        refine ⟨by simp [extractHouseInfo, hsec, hn], ?_⟩
        by_cases hu0 : u0 = ""
        · subst hu0
          simp [extractHouseInfo, hsec, hn, hh] at hu
          exact Or.inl hu.symm
        · by_cases hsw : pyStartsWith u0 "http"
          · simp [extractHouseInfo, hsec, hn, hh, hu0, hsw] at hu
            exact Or.inr (hu ▸ hsw)
          · simp [extractHouseInfo, hsec, hn, hh, hu0, hsw] at hu
            refine Or.inr ?_
            rw [← hu]
            unfold pyStartsWith
            rw [String.data_append]
            exact startsWithL_append _ _ _ (by decide)

/-- Witness for the amended C9 at a concrete relative agent link. -/
theorem c9_agent_url_amended_witness :
    (extractHouseInfo ⟨none, [], some ⟨some ⟨"Jane Doe", some "/agents/jane"⟩, none⟩,
        none⟩).agentName ≠ none ∧
    ("https://www.redfin.com/agents/jane" = "" ∨
      pyStartsWith "https://www.redfin.com/agents/jane" "http" = true) :=
  c9_agent_url_amended ⟨none, [], some ⟨some ⟨"Jane Doe", some "/agents/jane"⟩, none⟩, none⟩
    "https://www.redfin.com/agents/jane" (by rfl)

/-! ### Invariants of the key-details mapping -/

/-- First-match association lookup (the observable reading of a Python dict
whose keys are unique). -/
def assocLookup : List (String × String) → String → Option String
  | [], _ => none
  | p :: ps, k => if p.1 = k then some p.2 else assocLookup ps k

/-- The label sequence the row loop actually processes: labels of rows with
both nodes present, the "on redfin" label excluded, in document order. -/
def procLabels (rs : List KeyRow) : List String :=
  rs.filterMap fun r =>
    match r.label, r.value with
    | some lt, some _ => if lowerStr lt = "on redfin" then none else some lt
    | _, _ => none

/-- Value of the last processed row carrying label `k`, if any. -/
def lastContribution : List KeyRow → String → Option String
  | [], _ => none
  | r :: rs, k =>
    match lastContribution rs k with
    | some v => some v
    | none =>
      match r.label, r.value with
      | some lt, some vt =>
        if lowerStr lt = "on redfin" then none
        else if lt = k then some vt else none
      | _, _ => none

/-- Deduplication keeping first occurrences, relative to already-seen keys. -/
def seenDedup : List String → List String → List String
  | _, [] => []
  | seen, x :: xs =>
    if x ∈ seen then seenDedup seen xs
    else x :: seenDedup (x :: seen) xs

theorem keys_dictInsert_mem (d : List (String × String)) (k v : String)
    (h : k ∈ d.map Prod.fst) :
    (dictInsert d k v).map Prod.fst = d.map Prod.fst := by
  unfold dictInsert
  rw [if_pos h, List.map_map]
  apply List.map_congr_left
  intro p _
  by_cases hb : p.1 = k
  · simp [Function.comp_apply, hb]
  · simp [Function.comp_apply, hb]

theorem keys_dictInsert_new (d : List (String × String)) (k v : String)
    (h : k ∉ d.map Prod.fst) :
    (dictInsert d k v).map Prod.fst = d.map Prod.fst ++ [k] := by
  unfold dictInsert
  rw [if_neg h, List.map_append]
  rfl

theorem nodup_keys_dictInsert (d : List (String × String)) (k v : String)
    (hd : (d.map Prod.fst).Nodup) : ((dictInsert d k v).map Prod.fst).Nodup := by
  by_cases h : k ∈ d.map Prod.fst
  · rw [keys_dictInsert_mem d k v h]; exact hd
  · rw [keys_dictInsert_new d k v h, List.nodup_append]
    refine ⟨hd, List.nodup_singleton k, ?_⟩
    intro a ha hb
    rw [List.mem_singleton] at hb
    exact h (hb ▸ ha)

theorem nodup_keys_keyStep (d : List (String × String)) (r : KeyRow)
    (hd : (d.map Prod.fst).Nodup) : ((keyStep d r).map Prod.fst).Nodup := by
  unfold keyStep
  cases r.label with
  | none => exact hd
  | some lt =>
    cases r.value with
    | none => exact hd
    | some vt =>
      by_cases hor : lowerStr lt = "on redfin"
      · simpa [hor] using hd
      · simpa [hor] using nodup_keys_dictInsert d lt vt hd

theorem nodup_keys_build (rs : List KeyRow) :
    ∀ d, (d.map Prod.fst).Nodup → ((buildKeyDetails d rs).map Prod.fst).Nodup := by
  induction rs with
  | nil => intro d hd; exact hd
  | cons r rs ih =>
    intro d hd
    exact ih (keyStep d r) (nodup_keys_keyStep d r hd)

theorem assocLookup_append (d1 d2 : List (String × String)) (k : String) :
    assocLookup (d1 ++ d2) k =
      match assocLookup d1 k with
      | some v => some v
      | none => assocLookup d2 k := by
  induction d1 with
  | nil => rfl
  | cons p ps ih =>
    simp only [List.cons_append, assocLookup]
    by_cases hp : p.1 = k
    · simp [hp]
    · simp [hp, ih]

theorem assocLookup_not_mem (d : List (String × String)) (k : String)
    (h : k ∉ d.map Prod.fst) : assocLookup d k = none := by
  induction d with
  | nil => rfl
  | cons p ps ih =>
    simp only [List.map_cons, List.mem_cons, not_or] at h
    simp only [assocLookup]
    rw [if_neg fun hh => h.1 hh.symm]
    exact ih h.2

theorem assocLookup_map_replace (k v k' : String) :
    ∀ d : List (String × String),
      assocLookup (d.map fun p => if p.1 = k then (k, v) else p) k' =
        if k' = k then (if k ∈ d.map Prod.fst then some v else none)
        else assocLookup d k' := by
  intro d
  induction d with
  | nil => by_cases hk : k' = k <;> simp [assocLookup, hk]
  | cons p ps ih =>
    by_cases hpk : p.1 = k
    · by_cases hk : k' = k
      · subst hk
        simp [assocLookup, hpk]
      · have hkk : ¬ k = k' := fun hh => hk hh.symm
        simp [assocLookup, hpk, hkk, hk, ih]
    · by_cases hp' : p.1 = k'
      · have hk : ¬ k' = k := fun hh => hpk (hp'.trans hh)
        simp [assocLookup, hpk, hp', hk]
      · have hkp : ¬ k = p.1 := fun hh => hpk hh.symm
        simp only [List.map_cons, hpk, if_false, assocLookup, hp', ih]
        by_cases hk : k' = k
        · rw [if_pos hk, if_pos hk]
          exact if_congr (by simp [List.mem_cons, hkp]) rfl rfl
        · simp [hk]

theorem assocLookup_dictInsert (d : List (String × String)) (k v k' : String) :
    assocLookup (dictInsert d k v) k' = if k' = k then some v else assocLookup d k' := by
  by_cases h : k ∈ d.map Prod.fst
  · unfold dictInsert
    rw [if_pos h, assocLookup_map_replace k v k' d, if_pos h]
  · unfold dictInsert
    rw [if_neg h, assocLookup_append]
    by_cases hk : k' = k
    · subst hk
      rw [assocLookup_not_mem d k' h]
      simp [assocLookup]
    · rw [if_neg hk]
      cases hd : assocLookup d k' with
      | some w => rfl
      | none =>
        have hkk : ¬ k = k' := fun hh => hk hh.symm
        simp [assocLookup, hkk]

theorem assocLookup_build (rs : List KeyRow) :
    ∀ d k, assocLookup (buildKeyDetails d rs) k =
      match lastContribution rs k with
      | some v => some v
      | none => assocLookup d k := by
  induction rs with
  | nil => intro d k; rfl
  | cons r rs ih =>
    intro d k
    show assocLookup (buildKeyDetails (keyStep d r) rs) k = _
    rw [ih]
    cases hlc : lastContribution rs k with
    | some v => simp [lastContribution, hlc]
    | none =>
      simp only [lastContribution, hlc]
      unfold keyStep
      cases hl : r.label with
      | none => rfl
      | some lt =>
        cases hv : r.value with
        | none => rfl
        | some vt =>
          by_cases hor : lowerStr lt = "on redfin"
          · simp [hor]
          · simp only [hor, if_false]
            rw [assocLookup_dictInsert]
            by_cases hlk : lt = k
            · subst hlk
              simp
            · have hkl : ¬ k = lt := fun hh => hlk hh.symm
              simp [hlk, hkl]

theorem seenDedup_congr (L : List String) :
    ∀ s1 s2 : List String, (∀ x, x ∈ s1 ↔ x ∈ s2) → seenDedup s1 L = seenDedup s2 L := by
  induction L with
  | nil => intro s1 s2 _; rfl
  | cons x xs ih =>
    intro s1 s2 hs
    by_cases hc : x ∈ s2
    · simp only [seenDedup]
      rw [if_pos ((hs x).mpr hc), if_pos hc]
      exact ih s1 s2 hs
    · have h1 : x ∉ s1 := fun hh => hc ((hs x).mp hh)
      simp only [seenDedup]
      rw [if_neg h1, if_neg hc]
      refine congrArg (x :: ·) (ih (x :: s1) (x :: s2) ?_)
      intro y
      simp [List.mem_cons, hs y]

theorem keys_build_seenDedup (rs : List KeyRow) :
    ∀ d, (buildKeyDetails d rs).map Prod.fst =
      d.map Prod.fst ++ seenDedup (d.map Prod.fst) (procLabels rs) := by
  induction rs with
  | nil => intro d; simp [buildKeyDetails, seenDedup]
  | cons r rs ih =>
    intro d
    show (buildKeyDetails (keyStep d r) rs).map Prod.fst = _
    unfold keyStep
    cases hl : r.label with
    | none =>
      rw [ih d]
      have hpl : procLabels (r :: rs) = procLabels rs :=
        List.filterMap_cons_none (by simp [hl])
      rw [hpl]
    | some lt =>
      cases hv : r.value with
      | none =>
        rw [ih d]
        have hpl : procLabels (r :: rs) = procLabels rs :=
          List.filterMap_cons_none (by simp [hl, hv])
        rw [hpl]
      | some vt =>
        by_cases hor : lowerStr lt = "on redfin"
        · simp only [hor, if_true]
          rw [ih d]
          have hpl : procLabels (r :: rs) = procLabels rs :=
            List.filterMap_cons_none (by simp [hl, hv, hor])
          rw [hpl]
        · simp only [hor, if_false]
          have hpl : procLabels (r :: rs) = lt :: procLabels rs :=
            List.filterMap_cons_some (by simp [hl, hv, hor])
          rw [hpl, ih (dictInsert d lt vt)]
          by_cases hany : lt ∈ d.map Prod.fst
          · rw [keys_dictInsert_mem d lt vt hany]
            simp only [seenDedup]
            rw [if_pos hany]
          · rw [keys_dictInsert_new d lt vt hany]
            have hsd : seenDedup (d.map Prod.fst ++ [lt]) (procLabels rs) =
                seenDedup (lt :: d.map Prod.fst) (procLabels rs) := by
              refine seenDedup_congr (procLabels rs) _ _ ?_
              intro y
              simp [List.mem_append, List.mem_cons, or_comm]
            rw [hsd]
            simp only [seenDedup]
            rw [if_neg hany]
            simp [List.append_assoc]

/-- Claim C10: in the `keyDetails` mapping each label occurs exactly once —
the key sequence is the first-occurrence deduplication of the processed
labels — the value stored under a label is the one of the last processed row
carrying it, rows missing their label node or value node are skipped exactly
as if absent, and a concrete table with a duplicate label, an `On Redfin` row
and a value-less row illustrates the first-position/last-value behaviour. -/
theorem c10_key_details_mapping (rows : List KeyRow) :
    ((buildKeyDetails [] rows).map Prod.fst).Nodup ∧
    buildKeyDetails [] rows = buildKeyDetails [] (rows.filter validRow) ∧
    (buildKeyDetails [] rows).map Prod.fst = seenDedup [] (procLabels rows) ∧
    (∀ k, assocLookup (buildKeyDetails [] rows) k = lastContribution rows k) ∧
    buildKeyDetails []
        [⟨some "Style", some "A"⟩, ⟨some "On Redfin", some "5 days"⟩,
         ⟨some "Year Built", some "1990"⟩, ⟨some "Style", some "B"⟩,
         ⟨some "Parking", none⟩] =
      [("Style", "B"), ("Year Built", "1990")] := by
  refine ⟨nodup_keys_build rows [] (by simp), buildKeyDetails_filter rows [], ?_, ?_, by rfl⟩
  · simpa using keys_build_seenDedup rows []
  · intro k
    rw [assocLookup_build rows [] k]
    cases lastContribution rows k <;> rfl

/-! ### Engagement stats extraction

The Python source searches the visible body text with the regular expression
`([0-9,]+\\s+\\w+\\s+on\\s+Redfin)\\s\u2022\\s([0-9,]+\\sviews)\\s\u2022\\s([0-9,]+\\sfavorites)`
(case-insensitive) and retries exactly once against re-read body text when it
finds no match.  The pattern is embedded as a backtracking matcher whose
alternatives are ordered the way the regex engine tries them (greedy
quantifiers longest first, leftmost starting position first). -/

/-- The `[0-9,]` character class. -/
def isDigitComma (c : Char) : Bool :=
  ('0' ≤ c && c ≤ '9') || c == ','

/-- The `\\w` character class (ASCII letters, digits, underscore). -/
def isWordChar (c : Char) : Bool :=
  c.isAlphanum || c == '_'

/-- A nondeterministic matcher: every way of splitting the input into a
matched prefix and a rest, in the order a backtracking engine prefers. -/
abbrev Matcher := List Char → List (List Char × List Char)

/-- Concatenation of two pattern pieces, left piece's preference first. -/
def mseq (p q : Matcher) : Matcher := fun s =>
  (p s).flatMap fun m1 => (q m1.2).map fun m2 => (m1.1 ++ m2.1, m2.2)

/-- A single character of a class (`\\s`). -/
def mchar (f : Char → Bool) : Matcher := fun s =>
  match s with
  | [] => []
  | c :: cs => if f c then [([c], cs)] else []

/-- Greedy one-or-more of a character class, alternatives longest first. -/
def mplusChar (f : Char → Bool) : Matcher := fun s =>
  let run := s.takeWhile f
  (List.range run.length).map fun i =>
    (run.take (run.length - i), s.drop (run.length - i))

/-- A case-insensitive literal (the matched text keeps its original case, as
regex groups do). -/
def mlitCI (lit : List Char) : Matcher := fun s =>
  if (s.take lit.length).map Char.toLower = lit.map Char.toLower
  then [(s.take lit.length, s.drop lit.length)] else []

/-- An exact literal (the bullet separator). -/
def mlit (lit : List Char) : Matcher := fun s =>
  if s.take lit.length = lit then [(lit, s.drop lit.length)] else []

/-- Group `on_redfin`: `[0-9,]+\\s+\\w+\\s+on\\s+Redfin`. -/
def engGroup1 : Matcher :=
  mseq (mplusChar isDigitComma) (mseq (mplusChar isPyWs) (mseq (mplusChar isWordChar)
    (mseq (mplusChar isPyWs) (mseq (mlitCI ['o','n']) (mseq (mplusChar isPyWs)
      (mlitCI ['r','e','d','f','i','n']))))))

/-- The separator `\\s\u2022\\s`. -/
def engSep : Matcher :=
  mseq (mchar isPyWs) (mseq (mlit ['\u2022']) (mchar isPyWs))

/-- Group `views`: `[0-9,]+\\sviews`. -/
def engGroup2 : Matcher :=
  mseq (mplusChar isDigitComma) (mseq (mchar isPyWs) (mlitCI ['v','i','e','w','s']))

/-- Group `favorites`: `[0-9,]+\\sfavorites`. -/
def engGroup3 : Matcher :=
  mseq (mplusChar isDigitComma) (mseq (mchar isPyWs)
    (mlitCI ['f','a','v','o','r','i','t','e','s']))

/-- Try the whole pattern at the start of `s`; the first alternative in
backtracking order wins and its three group texts are returned. -/
def engagementAt (s : List Char) : Option (String × String × String) :=
  ((engGroup1 s).flatMap fun m1 =>
    (engSep m1.2).flatMap fun m2 =>
      (engGroup2 m2.2).flatMap fun m3 =>
        (engSep m3.2).flatMap fun m4 =>
          (engGroup3 m4.2).map fun m5 =>
            ((⟨m1.1⟩ : String), (⟨m3.1⟩ : String), (⟨m5.1⟩ : String))).head?

/-- `re.search`: the match at the leftmost succeeding start position. -/
def searchEngagement : List Char → Option (String × String × String)
  | [] => none
  | c :: cs =>
    match engagementAt (c :: cs) with
    | some g => some g
    | none => searchEngagement cs

/-- The engagement block of `_scrape_property_detail`: search the first body
text; on failure re-read the body once (`body2`, `none` when the re-read
itself raised) and search again; each matched group passes through
`_clean_card_stat`, a miss leaves all three fields absent. -/
def extractEngagement (body1 : String) (body2 : Option String) :
    Option String × Option String × Option String :=
  match searchEngagement body1.data with
  | some g => (some (cleanStat g.1), some (cleanStat g.2.1), some (cleanStat g.2.2))
  | none =>
    match body2 with
    | none => (none, none, none)
    | some b2 =>
      match searchEngagement b2.data with
      | some g => (some (cleanStat g.1), some (cleanStat g.2.1), some (cleanStat g.2.2))
      | none => (none, none, none)

/-- Claim C8: the three engagement fields come from one combined match and
are always populated together or all absent; a successful first search makes
the retry body irrelevant; after a failed search and a failed retry all three
are absent; and the documented example text yields exactly
`onRedfin="1,234 people on Redfin"`, `views="567 views"`,
`favorites="89 favorites"`. -/
theorem c8_engagement_stats :
    (∀ (b1 : String) (b2 : Option String),
      ((extractEngagement b1 b2).1.isSome ∧ (extractEngagement b1 b2).2.1.isSome ∧
        (extractEngagement b1 b2).2.2.isSome) ∨
      ((extractEngagement b1 b2).1 = none ∧ (extractEngagement b1 b2).2.1 = none ∧
        (extractEngagement b1 b2).2.2 = none)) ∧
    (∀ (b1 : String) (b2 b2' : Option String) (g : String × String × String),
      searchEngagement b1.data = some g →
      extractEngagement b1 b2 = extractEngagement b1 b2') ∧
    (∀ (b1 b2 : String), searchEngagement b1.data = none → searchEngagement b2.data = none →
      extractEngagement b1 (some b2) = (none, none, none)) ∧
    extractEngagement
        "Beautiful home\n1,234 people on Redfin \u2022 567 views \u2022 89 favorites\nTour" none =
      (some "1,234 people on Redfin", some "567 views", some "89 favorites") := by
  refine ⟨?_, ?_, ?_, by rfl⟩
  · intro b1 b2
    unfold extractEngagement
    cases h1 : searchEngagement b1.data with
    | some g => left; simp [h1]
    | none =>
      cases b2 with
      | none => right; simp [h1]
      | some b2s =>
        cases h2 : searchEngagement b2s.data with
        | some g => left; simp [h1, h2]
        | none => right; simp [h1, h2]
  · intro b1 b2 b2' g h
    unfold extractEngagement
    rw [h]
  · intro b1 b2 h1 h2
    unfold extractEngagement
    rw [h1]
    simp [h2]

/-- Witness for C8: a first read and a retry that both lack the pattern leave
all three fields absent. -/
theorem c8_engagement_stats_witness :
    extractEngagement "no stats rendered" (some "still loading") = (none, none, none) :=
  c8_engagement_stats.2.2.1 "no stats rendered" "still loading" (by rfl) (by rfl)

end Redfin
